import Mathlib

/-!
Verification development for the Nightjar embed-code extraction engine.

The JavaScript client scans a fetched Adobe Launch bundle with substring
search and regular-expression matches.  Text is modelled as `List Char`,
JavaScript string primitives (`includes`, `indexOf`, `split`, `substring`,
regex matching) are given explicit executable counterparts, and the
extraction pass `parseEmbed`, the analysis operations `analyzeRule` and
`analyzeDataElement`, and the variable usage indexer are translated
definition by definition from `src/nightjar-client.js`.
-/

set_option maxRecDepth 40000
set_option maxHeartbeats 1000000

/-- Program text is modelled as a list of characters. -/
abbrev Str := List Char

/-- Conversion from Lean string literals to the text model. -/
def str (s : String) : Str := s.toList

/-- Boolean test that the first list is a prefix of the second
(JavaScript `startsWith`). -/
def isPrefixL : Str → Str → Bool
  | [], _ => true
  | _ :: _, [] => false
  | a :: as, b :: bs => a = b && isPrefixL as bs

/-- Boolean substring test: `containsSub s pat` holds when `pat` occurs
contiguously inside `s` (JavaScript `includes`). -/
def containsSub (s pat : Str) : Bool :=
  match s with
  | [] => isPrefixL pat []
  | _ :: rest => isPrefixL pat s || containsSub rest pat

/-- Index of the first occurrence of `pat` in `s`
(JavaScript `indexOf`, `none` for `-1`). -/
def findSub (pat : Str) : Str → Option Nat
  | [] => if isPrefixL pat [] then some 0 else none
  | c :: rest =>
    if isPrefixL pat (c :: rest) then some 0
    else (findSub pat rest).map (· + 1)

/-- Index of the first occurrence of `pat` in `s` at or after position
`from0` (JavaScript `indexOf(pat, from0)`). -/
def findSubFrom (pat : Str) (from0 : Nat) (s : Str) : Option Nat :=
  (findSub pat (s.drop from0)).map (· + from0)

/-- Split at the first occurrence of `sep`: returns the text before the
occurrence and the text after it, or `none` when `sep` does not occur. -/
def breakFirst (sep : Str) : Str → Option (Str × Str)
  | [] => if isPrefixL sep [] then some ([], []) else none
  | c :: rest =>
    if isPrefixL sep (c :: rest) then some ([], (c :: rest).drop sep.length)
    else (breakFirst sep rest).map (fun p => (c :: p.1, p.2))

/-- JavaScript `s.split(sep)[0]`: the text before the first occurrence of
`sep`, or all of `s` when `sep` does not occur. -/
def jsIdx0 (sep s : Str) : Str :=
  ((breakFirst sep s).map Prod.fst).getD s

/-- JavaScript `s.split(sep)[1]`: the text strictly between the first and
second occurrences of `sep` (up to the end when `sep` occurs once);
`none` when `sep` does not occur at all. -/
def jsIdx1 (sep s : Str) : Option Str :=
  (breakFirst sep s).map (fun p => jsIdx0 sep p.2)

/-- Fuelled worker for `splitOnStr`. -/
def splitOnStrAux (sep : Str) : Nat → Str → List Str
  | 0, s => [s]
  | fuel + 1, s =>
    match breakFirst sep s with
    | none => [s]
    | some (pre, rest) => pre :: splitOnStrAux sep fuel rest

/-- JavaScript `s.split(sep)` for a non-empty separator string: all the
pieces between consecutive non-overlapping occurrences of `sep`. -/
def splitOnStr (sep s : Str) : List Str :=
  splitOnStrAux sep (s.length + 1) s

/-- JavaScript `s.split(c)` for a single-character separator. -/
def jsSplitChar (sep : Char) : Str → List Str
  | [] => [[]]
  | c :: rest =>
    if c = sep then [] :: jsSplitChar sep rest
    else
      match jsSplitChar sep rest with
      | [] => [[c]]
      | h :: t => (c :: h) :: t

/-- JavaScript `s.substring(a, b)`: clamps both indices to the string
length and swaps them when `a > b`. -/
def jsSubstring (s : Str) (a b : Nat) : Str :=
  let a' := min a s.length
  let b' := min b s.length
  let lo := min a' b'
  let hi := max a' b'
  (s.drop lo).take (hi - lo)

/-- Association-list update used to model JavaScript object assignment:
an existing key keeps its position and gets the new value, a fresh key is
appended at the end (insertion order). -/
def upsertL (k : Str) (v : α) : List (Str × α) → List (Str × α)
  | [] => [(k, v)]
  | (k', v') :: rest =>
    if k' = k then (k, v) :: rest else (k', v') :: upsertL k v rest

/-- Association-list lookup (first matching key). -/
def lookupL (k : Str) : List (Str × α) → Option α
  | [] => none
  | (k', v) :: rest => if k' = k then some v else lookupL k rest

/-- Index of the first occurrence of `x` in a list of strings
(JavaScript `Array.indexOf`). -/
def idxOf (x : Str) : List Str → Option Nat
  | [] => none
  | y :: rest => if y = x then some 0 else (idxOf x rest).map (· + 1)

/-- Decimal digit character. -/
def digitChar (n : Nat) : Char := Char.ofNat (48 + n)

/-- Fuelled decimal printer for natural numbers. -/
def natToCharsAux : Nat → Nat → Str
  | _, 0 => []
  | n, fuel + 1 =>
    if n < 10 then [digitChar n]
    else natToCharsAux (n / 10) fuel ++ [digitChar (n % 10)]

/-- Decimal representation of a natural number, used to build variable
tokens such as `eVar17` (JavaScript template interpolation of a number). -/
def natToChars (n : Nat) : Str := natToCharsAux n (n + 1)

/-- Characters matched by the JavaScript regex metacharacter dot
(everything except line terminators). -/
def dotChar (c : Char) : Bool :=
  c ≠ '\n' && c ≠ '\r' && c ≠ Char.ofNat 0x2028 && c ≠ Char.ofNat 0x2029

/-- JavaScript regex word characters (ASCII letters, digits, underscore). -/
def wordChar (c : Char) : Bool := c.isAlphanum || c = '_'

/-- JavaScript regex whitespace class. -/
def jsSpace (c : Char) : Bool :=
  c = ' ' || c = '\t' || c = '\n' || c = '\r' ||
  c = Char.ofNat 0x0B || c = Char.ofNat 0x0C || c = Char.ofNat 0xA0 ||
  c = Char.ofNat 0x1680 || (0x2000 ≤ c.toNat && c.toNat ≤ 0x200A) ||
  c = Char.ofNat 0x2028 || c = Char.ofNat 0x2029 || c = Char.ofNat 0x202F ||
  c = Char.ofNat 0x205F || c = Char.ofNat 0x3000 || c = Char.ofNat 0xFEFF

/-- Match a literal at the head of the text, returning the remainder. -/
def expectLit (lit s : Str) : Option Str :=
  if isPrefixL lit s then some (s.drop lit.length) else none

/-- Match a non-empty run of non-quote characters followed by a closing
quote (the regex fragment capturing one or more non-quote characters up
to a quote), returning the captured run and the remainder. -/
def quotedRun (s : Str) : Option (Str × Str) :=
  let run := s.takeWhile (· ≠ '"')
  if run = [] then none
  else
    match s.drop run.length with
    | '"' :: rest => some (run, rest)
    | _ => none

-- Fixed marker strings of `nightjar-client.js`.

/-- Validity marker `window._satellite`. -/
def satLit1 : Str := str "window._satellite"

/-- Validity marker `_satellite.container`. -/
def satLit2 : Str := str "_satellite.container"

/-- Container assignment marker. -/
def containerLit : Str := str "window._satellite.container="

/-- Opening marker of the data-elements block. -/
def deOpenLit : Str := str "dataElements:\x7b"

/-- End marker of the data-elements block. -/
def deEndLit : Str := str "\x7d,extensions:\x7b"

/-- Separator used to slice the data-elements block. -/
def deSepLit : Str := str "\x7d\x7d,"

/-- Opening of an events array-like region. -/
def evOpenLit : Str := str "events:["

/-- Key marker of a quoted path value. -/
def pathLit : Str := str "path:\""

/-- Opening of a conditions array-like region. -/
def condOpenLit : Str := str "conditions:["

/-- An empty conditions region. -/
def condEmptyLit : Str := str "conditions:[]"

/-- Sentinel stored when a rule has conditions. -/
def hasCondLit : Str := str "Has conditions"

/-- Opening of an actions array-like region. -/
def actOpenLit : Str := str "actions:["

/-- An empty actions region. -/
def actEmptyLit : Str := str "actions:[]"

/-- Key marker of the tracker-properties block. -/
def tpLit : Str := str "trackerProperties:"

/-- Custom-code module reference. -/
def ccJsLit : Str := str "customCode.js"

/-- Key marker of a quoted source value. -/
def sourceLit : Str := str "source:\""

/-- Scheme test for remote custom code. -/
def httpLit : Str := str "http"

/-- Sentinel event type. -/
def unknownLit : Str := str "Unknown"

/-- Test for a deferred remote custom-code marker. -/
def urlColonLit : Str := str "URL:"

/-- Head of the deferred remote custom-code marker. -/
def urlSpaceLit : Str := str "URL: "

/-- Tail of the deferred remote custom-code marker. -/
def urlMarkTail : Str := str " (Use analyze_rule to fetch complete code)"

/-- Key marker of a quoted module path. -/
def modulePathLit : Str := str "modulePath:\""

-- Rule record discovery (the anchor regex of `parseEmbed`).

/-- Match the rule anchor regex at the start of the text: an opening
brace, an `id` key (quoted or not) whose value starts with `RL`, then a
`name` key (quoted or not) with a quoted value.  Returns the rule id, the
rule name, and the remainder of the text after the match. -/
def anchorAt (s : Str) : Option (Str × Str × Str) :=
  match s with
  | '\x7b' :: s1 =>
    let afterId :=
      match expectLit (str "id:\"") s1 with
      | some r => some r
      | none => expectLit (str "\"id\":\"") s1
    match afterId with
    | none => none
    | some s2 =>
      match s2 with
      | 'R' :: 'L' :: s3 =>
        match quotedRun s3 with
        | none => none
        | some (cs, s4) =>
          let afterName :=
            match expectLit (str ",name:\"") s4 with
            | some r => some r
            | none => expectLit (str ",\"name\":\"") s4
          match afterName with
          | none => none
          | some s5 =>
            match quotedRun s5 with
            | none => none
            | some (nm, s6) => some ('R' :: 'L' :: cs, nm, s6)
      | _ => none
  | _ => none

/-- Context window around a match position: twenty characters before the
match and two thousand characters past it, clamped to the text. -/
def windowAt (whole : Str) (idx : Nat) : Str :=
  let start := idx - 20
  let stop := min whole.length (idx + 2000)
  (whole.drop start).take (stop - start)

/-- Fuelled global scan of the anchor regex: at each position try the
anchor; on a match record the rule name with its context window and
resume after the matched text, otherwise advance one character. -/
def findRulesAux (whole : Str) : Nat → Str → Nat → List (Str × Str)
  | 0, _, _ => []
  | fuel + 1, s, pos =>
    match s with
    | [] => []
    | _ :: rest =>
      match anchorAt s with
      | some (_, nm, after) =>
        (nm, windowAt whole pos) ::
          findRulesAux whole fuel after (pos + (s.length - after.length))
      | none => findRulesAux whole fuel rest (pos + 1)

/-- All rules discovered in the bundle text, as name / context-window
pairs in match order. -/
def rulesListOf (txt : Str) : List (Str × Str) :=
  findRulesAux txt (txt.length + 1) txt 0

-- Field extraction from one rule context window.

/-- Scan for the lazily-reached `path` key of the event regex: starting
right after an `events:[` marker, advance over regex-dot characters until
a `path` key with a non-empty quoted value is found.  Returns the quoted
value, or `none` when the scan hits a line terminator or the end. -/
def pathScan : Str → Option Str
  | [] => none
  | c :: rest =>
    match expectLit pathLit (c :: rest) with
    | some u =>
      match quotedRun u with
      | some (cap, _) => some cap
      | none => if dotChar c then pathScan rest else none
    | none => if dotChar c then pathScan rest else none

/-- Leftmost match of the event regex: the first `events:[` occurrence
from which the scan for a `path` key succeeds yields the quoted path. -/
def findEventPath : Str → Option Str
  | [] => none
  | c :: rest =>
    match expectLit evOpenLit (c :: rest) with
    | some after =>
      match pathScan after with
      | some cap => some cap
      | none => findEventPath rest
    | none => findEventPath rest

/-- Event type of a rule window: the quoted path of the event regex is
split on `/`, the last segment is taken, and everything from its first
`.` on is dropped; the sentinel `Unknown` when the regex does not match. -/
def extractEvent (ctx : Str) : Str :=
  match findEventPath ctx with
  | none => unknownLit
  | some p =>
    let parts := jsSplitChar '/' p
    let fileName := parts.getLastD []
    (jsSplitChar '.' fileName).headD []

/-- Condition summary of a rule window: the fixed sentinel when the
window contains `conditions:[` but not `conditions:[]`, else empty. -/
def extractCondition (ctx : Str) : Str :=
  if containsSub ctx condOpenLit && !containsSub ctx condEmptyLit then hasCondLit
  else []

/-- Action text of a rule window: when the window contains `actions:[`
but not `actions:[]`, the substring from the start of `actions:[` through
the first `]` at or after it (JavaScript substring semantics, so a
missing `]` flips the bounds and yields the prefix of the window). -/
def extractAction (ctx : Str) : Str :=
  if containsSub ctx actOpenLit && !containsSub ctx actEmptyLit then
    match findSub actOpenLit ctx with
    | some st0 =>
      match findSubFrom (str "]") st0 ctx with
      | some e => jsSubstring ctx st0 (e + 1)
      | none => jsSubstring ctx st0 0
    | none => []
  else []

/-- Tracker-properties slice of a rule window: from just after the
`trackerProperties:` key through the first `\x7d` at or after it
(JavaScript substring semantics on a missing closing brace). -/
def extractTracker (ctx : Str) : Str :=
  if containsSub ctx tpLit then
    match findSub tpLit ctx with
    | some st0 =>
      let tpStart := st0 + tpLit.length
      match findSubFrom (str "\x7d") tpStart ctx with
      | some e => jsSubstring ctx tpStart (e + 1)
      | none => jsSubstring ctx tpStart 0
    | none => []
  else []

/-- Greedy backtracking for the custom-code regex: `s` starts right after
a `customCode.js` occurrence; try offsets from the end of the maximal
comma-free run down to one, looking for a `source` key with a non-empty
quoted value. -/
def ccTryK (s : Str) : Nat → Option Str
  | 0 => none
  | k + 1 =>
    match expectLit sourceLit (s.drop (k + 1)) with
    | some u =>
      match quotedRun u with
      | some (cap, _) => some cap
      | none => ccTryK s k
    | none => ccTryK s k

/-- Attempt the custom-code regex continuation at one `customCode.js`
occurrence. -/
def ccAtOccur (s : Str) : Option Str :=
  ccTryK s (s.takeWhile (· ≠ ',')).length

/-- Leftmost match of the custom-code regex over the window. -/
def ccSearch : Str → Option Str
  | [] => none
  | c :: rest =>
    match expectLit ccJsLit (c :: rest) with
    | some after =>
      match ccAtOccur after with
      | some cap => some cap
      | none => ccSearch rest
    | none => ccSearch rest

/-- Custom code of a rule window: the captured `source` string, wrapped
into a deferred-URL marker when it starts with `http`; empty when the
window lacks `customCode.js` or the regex does not match. -/
def extractCustomCode (ctx : Str) : Str :=
  if containsSub ctx ccJsLit then
    match ccSearch ctx with
    | some cap =>
      if isPrefixL httpLit cap then urlSpaceLit ++ cap ++ urlMarkTail
      else cap
    | none => []
  else []

-- The parsed model.

/-- The six parallel rule field collections of the parsed model. -/
structure RulesData where
  names : List Str
  events : List Str
  conditions : List Str
  actions : List Str
  trackerProperties : List Str
  customCode : List Str
deriving Repr, DecidableEq

/-- The empty rules collection. -/
def emptyRules : RulesData := ⟨[], [], [], [], [], []⟩

/-- Processing of one discovered rule: push one entry onto each of the
six parallel collections. -/
def ruleStep (acc : RulesData) (r : Str × Str) : RulesData :=
  { names := acc.names ++ [r.1]
    events := acc.events ++ [extractEvent r.2]
    conditions := acc.conditions ++ [extractCondition r.2]
    actions := acc.actions ++ [extractAction r.2]
    trackerProperties := acc.trackerProperties ++ [extractTracker r.2]
    customCode := acc.customCode ++ [extractCustomCode r.2] }

/-- Rule collections built from the discovered rule list. -/
def buildRules (l : List (Str × Str)) : RulesData :=
  l.foldl ruleStep emptyRules

/-- Data-element extraction: isolate the block between the data-elements
markers, slice it on the separator, and key each slice that begins with a
quoted identifier by that identifier. -/
def parseDataElements (cfg : Str) : List (Str × Str) :=
  match jsIdx1 deOpenLit cfg with
  | none => []
  | some sec =>
    if sec = [] then []
    else
      let cut := jsIdx0 deEndLit sec
      (splitOnStr deSepLit cut).foldl
        (fun m el =>
          match el with
          | '"' :: rest =>
            match quotedRun rest with
            | some (nm, _) => upsertL nm el m
            | none => m
          | _ => m) []

-- Variable usage indexing.

/-- Whole-word token test: the token occurs in the text followed by a
word boundary (the token ends in a digit, so the boundary holds exactly
when the next character is absent or not a word character). -/
def hasTokenWB (tok : Str) : Str → Bool
  | [] => false
  | c :: rest =>
    (isPrefixL tok (c :: rest) &&
      match (c :: rest).drop tok.length with
      | [] => true
      | d :: _ => !wordChar d) ||
    hasTokenWB tok rest

/-- Combined tracker-properties and custom-code text of the rule at one
index (missing entries behave as empty strings). -/
def combinedAt (r : RulesData) (i : Nat) : Str :=
  r.trackerProperties.getD i [] ++ r.customCode.getD i []

/-- One step of the population loop of `extractVariables`: append the
rule name when the combined text of the rule at this index contains the
token and the name is not already present. -/
def pvStep (r : RulesData) (v : Str) (acc : List Str) (p : Nat × Str) : List Str :=
  if hasTokenWB v (combinedAt r p.1) ∧ p.2 ∉ acc then acc ++ [p.2] else acc

/-- Inner population loop of `extractVariables`: walk all rules in order
and append each rule name whose combined text contains the token, unless
the name is already present. -/
def populateVar (r : RulesData) (v : Str) (acc : List Str) : List Str :=
  r.names.enum.foldl (pvStep r v) acc

/-- One `extractVariables` call: for every index in the family range,
when the triggering text contains the token, (re)compute the referencing
rule list on top of the current entry. -/
def extractVariablesStep (r : RulesData) (family : Str) (range : Nat)
    (text : Str) (vars : List (Str × List Str)) : List (Str × List Str) :=
  (List.range range).foldl
    (fun m i =>
      let v := family ++ natToChars i
      if hasTokenWB v text then
        upsertL v (populateVar r v ((lookupL v m).getD [])) m
      else m) vars

/-- The variable usage index: for each rule in order, run the three
family scans on its combined tracker-properties and custom-code text. -/
def buildVariables (r : RulesData) : List (Str × List Str) :=
  r.trackerProperties.enum.foldl
    (fun m p =>
      let combined := p.2 ++ r.customCode.getD p.1 []
      let m1 := extractVariablesStep r (str "eVar") 251 combined m
      let m2 := extractVariablesStep r (str "prop") 76 combined m1
      extractVariablesStep r (str "event") 1001 combined m2) []

/-- The parsed model: data elements, rule collections, variable index. -/
structure ParsedData where
  dataElements : List (Str × Str)
  rules : RulesData
  «variables» : List (Str × List Str)
deriving Repr, DecidableEq

/-- Error kinds raised by `parseEmbed`. -/
inductive ParseErr where
  | invalidBundleFormat
  | containerNotFound
deriving Repr, DecidableEq

/-- The extraction pass of `parseEmbed` on fetched bundle text: validity
check, container isolation, data-element extraction, rule discovery and
field extraction, variable indexing. -/
def parseEmbedModel (txt : Str) : Except ParseErr ParsedData :=
  if !containsSub txt satLit1 && !containsSub txt satLit2 then
    .error .invalidBundleFormat
  else
    match jsIdx1 containerLit txt with
    | none => .error .containerNotFound
    | some cfg =>
      if cfg = [] then .error .containerNotFound
      else
        let rules := buildRules (rulesListOf txt)
        .ok ⟨parseDataElements cfg, rules, buildVariables rules⟩

/-- Client session state: at most one current parsed model. -/
structure ClientState where
  parsedEmbed : Option ParsedData
deriving Repr, DecidableEq

/-- Stateful `parseEmbed`: on success the stored model is replaced by the
new one, on failure the error propagates and the state is as before (the
assignment to the stored model is the last step of the success path). -/
def parseEmbedRun (st : ClientState) (txt : Str) :
    ClientState × Except ParseErr ParsedData :=
  match parseEmbedModel txt with
  | .ok d => (⟨some d⟩, .ok d)
  | .error e => (st, .error e)

-- The query and analysis layer.

/-- Error kinds raised by the analysis operations. -/
inductive AnalyzeErr where
  | noModelParsed
  | ruleNotFound
  | dataElementNotFound
deriving Repr, DecidableEq

/-- The per-rule record assembled by `analyzeRule`. -/
structure RuleData where
  name : Str
  event : Str
  condition : Str
  action : Str
  trackerProperty : Str
  customCode : Str
deriving Repr, DecidableEq

/-- Leftmost match of the URL-extraction regex in `analyzeRule`: the text
after the first `URL: ` occurrence up to the first whitespace. -/
def urlOf (s : Str) : Option Str :=
  (breakFirst urlSpaceLit s).map (fun p => p.2.takeWhile (fun c => !jsSpace c))

/-- Failure note appended when fetching remote custom code fails. -/
def fetchFailNote (e : Str) : Str := str " (Failed to fetch: " ++ e ++ str ")"

/-- The `analyzeRule` operation.  The fetcher collaborator is explicit;
the middle component of the result records whether a fetch was attempted.
Requires a parsed model; looks the rule up by first matching name;
resolves a deferred remote custom-code marker by fetching it and
rewriting the model slot in place, appending a failure note to the local
record on fetch failure. -/
def analyzeRule (fetch : Str → Except Str Str) (st : ClientState)
    (ruleName : Str) : ClientState × Bool × Except AnalyzeErr RuleData :=
  match st.parsedEmbed with
  | none => (st, false, .error .noModelParsed)
  | some pd =>
    match idxOf ruleName pd.rules.names with
    | none => (st, false, .error .ruleNotFound)
    | some i =>
      let rd : RuleData :=
        { name := pd.rules.names.getD i []
          event := pd.rules.events.getD i []
          condition := pd.rules.conditions.getD i []
          action := pd.rules.actions.getD i []
          trackerProperty := pd.rules.trackerProperties.getD i []
          customCode := pd.rules.customCode.getD i [] }
      if !rd.customCode.isEmpty && isPrefixL urlColonLit rd.customCode then
        match urlOf rd.customCode with
        | some url =>
          if url.isEmpty then (st, false, .ok rd)
          else
            match fetch url with
            | .ok txt =>
              let pd' :=
                { pd with
                  rules :=
                    { pd.rules with
                      customCode := pd.rules.customCode.set i txt } }
              (⟨some pd'⟩, true, .ok { rd with customCode := txt })
            | .error e =>
              (st, true, .ok { rd with customCode := rd.customCode ++ fetchFailNote e })
        | none => (st, false, .ok rd)
      else (st, false, .ok rd)

/-- Keyword table of the condition summarizer. -/
def condKeywords : List (Str × Str) :=
  [(str "pathname", str "Page path condition"),
   (str "hostname", str "Hostname condition"),
   (str "cookie", str "Cookie value condition"),
   (str "querystring", str "Query string parameter condition"),
   (str "dataElement", str "Data element value condition"),
   (str "logicalCondition", str "Logical operator condition")]

/-- The condition summarizer of the non-AI analysis path. -/
def summarizeCondition (c : Str) : Str :=
  if c.isEmpty || c = str "missing component" then
    str "No conditions (rule always fires)"
  else
    let summary :=
      condKeywords.foldl
        (fun acc p => if containsSub c p.1 then acc ++ [p.2] else acc) []
    if summary.isEmpty then hasCondLit
    else List.intercalate (str ", ") summary

-- Data-element analysis.

/-- Leftmost match of a key-with-quoted-value regex: the first position
where the literal key matches and is followed by a non-empty quoted
value. -/
def firstCapture (lit : Str) : Str → Option Str
  | [] => none
  | c :: rest =>
    match expectLit lit (c :: rest) with
    | some u =>
      match quotedRun u with
      | some (cap, _) => some cap
      | none => firstCapture lit rest
    | none => firstCapture lit rest

/-- Initial data-element type before the signature table runs: the last
path segment of a quoted `modulePath` value when present, else the
sentinel. -/
def initialType (d : Str) : Str :=
  if containsSub d (str "modulePath:") then
    match firstCapture modulePathLit d with
    | some cap => (jsSplitChar '/' cap).getLastD []
    | none => unknownLit
  else unknownLit

/-- The fixed, ordered type-signature table of `analyzeDataElement`. -/
def typeChecks : List (Str × Str) :=
  [(str "constant", str "defaultValue"),
   (str "localStorage", str "storageDuration"),
   (str "customCode", str "customCode"),
   (str "jsVariable", str "path:"),
   (str "domElement", str "elementSelector"),
   (str "cookieValue", str "cookieName")]

/-- Data-element type classification: each table entry in order
overwrites the type when its signature occurs in the record text. -/
def classifyType (d : Str) : Str :=
  typeChecks.foldl (fun t p => if containsSub d p.2 then p.1 else t)
    (initialType d)

/-- The `analyzeDataElement` operation: requires a parsed model, looks
the element up by name, and returns the classified type with the raw
record text. -/
def analyzeDataElement (st : ClientState) (elementName : Str) :
    Except AnalyzeErr (Str × Str) :=
  match st.parsedEmbed with
  | none => .error .noModelParsed
  | some pd =>
    match lookupL elementName pd.dataElements with
    | none => .error .dataElementNotFound
    | some d => .ok (classifyType d, d)

-- Definitions that transcribe the wording of the specification, for
-- comparison with the code-level definitions above.

/-- Spec-side reading of the event filename stem: the final
slash-separated segment of the path, truncated before its first dot. -/
def lastSegSpec (sep : Char) (s : Str) : Str :=
  (s.reverse.takeWhile (· ≠ sep)).reverse

/-- Spec-side filename stem of a path. -/
def stemSpec (p : Str) : Str := (lastSegSpec '/' p).takeWhile (· ≠ '.')

/-- Spec-side reading of the condition summary: the raw inner text of
the conditions array-like region of the window (the text between
`conditions:[` and the next closing bracket), empty when no region
exists. -/
def conditionInnerSpec (ctx : Str) : Str :=
  match breakFirst condOpenLit ctx with
  | none => []
  | some p => p.2.takeWhile (· ≠ ']')

/-- The last type-signature table entry whose signature occurs in the
record text. -/
def lastMatching (d : Str) : Option (Str × Str) :=
  (typeChecks.filter (fun p => containsSub d p.2)).getLast?

-- Concrete bundle texts used as witnesses and counterexamples.

/-- A minimal valid bundle with one rule that has an event path, a
non-empty conditions region, and a tracker-properties block referencing
an analytics variable. -/
def bundleA : Str :=
  str "window._satellite.container=\x7brules:[\x7bid:\"RL1\",name:\"PageLoad\",events:[\x7bpath:\"core/src/pageLoad.js\"\x7d],conditions:[\x7bx:1\x7d],actions:[\x7btrackerProperties:\x7beVar1:\"a\"\x7d\x7d]\x7d]\x7d"

/-- A minimal valid bundle with one rule whose custom code is a remote
URL reference. -/
def bundleC5 : Str :=
  str "window._satellite.container=c\x7bid:\"RL1\",name:\"R\",customCode.js source:\"http://e/c.js\" \x7d"

/-- A minimal valid bundle with one data element whose record text
contains both the `storageDuration` and the `cookieName` signatures. -/
def bundleC8 : Str :=
  str "window._satellite.container=\x7bdataElements:\x7b\"El1\":\x7bstorageDuration:1,cookieName:\"c\"\x7d\x7d,extensions:\x7b\x7d\x7d"

/-- The empty parsed model, used as a fallback. -/
def emptyParsed : ParsedData := ⟨[], emptyRules, []⟩

/-- The model parsed from `bundleA`. -/
def bundleAmodel : ParsedData :=
  (parseEmbedModel bundleA).toOption.getD emptyParsed

/-- The model parsed from `bundleC5`. -/
def bundleC5model : ParsedData :=
  (parseEmbedModel bundleC5).toOption.getD emptyParsed

/-- The model parsed from `bundleC8`. -/
def bundleC8model : ParsedData :=
  (parseEmbedModel bundleC8).toOption.getD emptyParsed

/-- A fetcher whose response text itself begins with the URL marker. -/
def fetchUrlText : Str → Except Str Str := fun _ => .ok (str "URL: x y")

/-- A fetcher returning ordinary code text. -/
def fetchPlain : Str → Except Str Str := fun _ => .ok (str "setTimeout();")

/-- A fetcher that always fails. -/
def fetchFail : Str → Except Str Str := fun _ => .error (str "boom")

/-!
Lemmas about the string primitives.
-/

theorem isPrefixL_iff (p s : Str) : isPrefixL p s = true ↔ p <+: s := by
  induction p generalizing s with
  | nil => simp [isPrefixL]
  | cons a as ih =>
    cases s with
    | nil =>
      simp only [isPrefixL, Bool.false_eq_true, false_iff]
      intro h
      have := List.sublist_nil.mp h.sublist
      simp at this
    | cons b bs =>
      simp only [isPrefixL, Bool.and_eq_true, decide_eq_true_eq, ih]
      constructor
      · rintro ⟨rfl, h⟩
        obtain ⟨t, rfl⟩ := h
        exact ⟨t, rfl⟩
      · rintro ⟨t, ht⟩
        injection ht with h1 h2
        exact ⟨h1, t, h2⟩

theorem containsSub_iff (s pat : Str) : containsSub s pat = true ↔ pat <:+: s := by
  induction s with
  | nil =>
    simp only [containsSub]
    rw [isPrefixL_iff]
    constructor
    · exact fun h => h.isInfix
    · intro h
      have hn : pat = [] := List.sublist_nil.mp h.sublist
      exact hn ▸ List.prefix_rfl
  | cons c rest ih =>
    simp only [containsSub, Bool.or_eq_true, isPrefixL_iff, ih,
      List.infix_cons_iff]

theorem breakFirst_none (sep s : Str) (h : containsSub s sep = false) :
    breakFirst sep s = none := by
  induction s with
  | nil =>
    simp only [containsSub] at h
    simp [breakFirst, h]
  | cons c rest ih =>
    simp only [containsSub, Bool.or_eq_false_iff] at h
    simp [breakFirst, h.1, ih h.2]

/-- Fold invariant preservation. -/
theorem foldl_inv {α β : Type} (P : α → Prop) (f : α → β → α) (l : List β)
    (init : α) (h0 : P init) (hstep : ∀ a b, P a → b ∈ l → P (f a b)) :
    P (l.foldl f init) := by
  induction l generalizing init with
  | nil => exact h0
  | cons b bs ih =>
    exact ih (f init b) (hstep init b h0 (List.mem_cons_self b bs))
      (fun a b' ha hb' => hstep a b' ha (List.mem_cons_of_mem b hb'))

/-!
Shape of a successful parse.
-/

theorem parseEmbedModel_ok_shape (txt : Str) (m : ParsedData)
    (h : parseEmbedModel txt = .ok m) :
    m.rules = buildRules (rulesListOf txt) ∧
    m.«variables» = buildVariables m.rules := by
  unfold parseEmbedModel at h
  split at h
  · exact absurd h (by simp)
  · split at h
    · exact absurd h (by simp)
    · split at h
      · exact absurd h (by simp)
      · injection h with h
        subst h
        exact ⟨rfl, rfl⟩

theorem parseEmbedRun_snd (st : ClientState) (txt : Str) :
    (parseEmbedRun st txt).2 = parseEmbedModel txt := by
  unfold parseEmbedRun
  split <;> simp_all

/-!
Claim C7: failure behavior of the extraction pass.
-/

/-- C7: on bundle text containing neither validity marker, `parseEmbed`
fails with `InvalidBundleFormat`; when a validity marker is present but
the container-assignment marker is missing, it fails with
`ContainerNotFound`; and on every failure the stored model of the
session is left unchanged. -/
theorem c7_parse_failure_behavior (st : ClientState) (txt : Str) :
    (containsSub txt satLit1 = false → containsSub txt satLit2 = false →
      parseEmbedRun st txt = (st, .error .invalidBundleFormat)) ∧
    ((containsSub txt satLit1 = true ∨ containsSub txt satLit2 = true) →
      containsSub txt containerLit = false →
      parseEmbedRun st txt = (st, .error .containerNotFound)) ∧
    (∀ e, (parseEmbedRun st txt).2 = .error e →
      (parseEmbedRun st txt).1 = st) := by
  refine ⟨?_, ?_, ?_⟩
  · intro h1 h2
    have hm : parseEmbedModel txt = .error .invalidBundleFormat := by
      unfold parseEmbedModel
      simp [h1, h2]
    simp [parseEmbedRun, hm]
  · intro hv hc
    have hm : parseEmbedModel txt = .error .containerNotFound := by
      unfold parseEmbedModel
      have hvb : (!containsSub txt satLit1 && !containsSub txt satLit2) = false := by
        rcases hv with h | h <;> simp [h]
      rw [if_neg (by simp [hvb])]
      have : jsIdx1 containerLit txt = none := by
        simp [jsIdx1, breakFirst_none _ _ hc]
      simp [this]
    simp [parseEmbedRun, hm]
  · intro e he
    unfold parseEmbedRun at *
    split at he <;> simp_all [parseEmbedRun]

/-- Witness for C7 at concrete inputs: a session holding a parsed model
keeps it on both failure kinds. -/
theorem c7_parse_failure_behavior_witness :
    parseEmbedRun ⟨some bundleAmodel⟩ (str "hello") =
      (⟨some bundleAmodel⟩, .error .invalidBundleFormat) ∧
    parseEmbedRun ⟨some bundleAmodel⟩ (str "window._satellite foo") =
      (⟨some bundleAmodel⟩, .error .containerNotFound) := by
  constructor
  · exact (c7_parse_failure_behavior ⟨some bundleAmodel⟩ (str "hello")).1
      (by decide) (by decide)
  · exact (c7_parse_failure_behavior ⟨some bundleAmodel⟩
      (str "window._satellite foo")).2.1 (Or.inl (by decide)) (by decide)

/-!
Claim C1: the six rule field collections are parallel.
-/

theorem foldl_ruleStep_lengths (l : List (Str × Str)) (acc : RulesData) :
    ((l.foldl ruleStep acc).names.length = acc.names.length + l.length ∧
     (l.foldl ruleStep acc).events.length = acc.events.length + l.length) ∧
    ((l.foldl ruleStep acc).conditions.length =
        acc.conditions.length + l.length ∧
     (l.foldl ruleStep acc).actions.length = acc.actions.length + l.length) ∧
    ((l.foldl ruleStep acc).trackerProperties.length =
        acc.trackerProperties.length + l.length ∧
     (l.foldl ruleStep acc).customCode.length =
        acc.customCode.length + l.length) := by
  induction l generalizing acc with
  | nil => simp
  | cons x xs ih =>
    have h := ih (ruleStep acc x)
    have h1 : (ruleStep acc x).names.length = acc.names.length + 1 := by
      simp [ruleStep]
    have h2 : (ruleStep acc x).events.length = acc.events.length + 1 := by
      simp [ruleStep]
    have h3 : (ruleStep acc x).conditions.length =
        acc.conditions.length + 1 := by
      simp [ruleStep]
    have h4 : (ruleStep acc x).actions.length = acc.actions.length + 1 := by
      simp [ruleStep]
    have h5 : (ruleStep acc x).trackerProperties.length =
        acc.trackerProperties.length + 1 := by
      simp [ruleStep]
    have h6 : (ruleStep acc x).customCode.length =
        acc.customCode.length + 1 := by
      simp [ruleStep]
    simp only [List.foldl_cons, List.length_cons]
    omega

/-- C1: in every model produced by the extraction pass, the six rule
field collections have equal length, with exactly one entry per
discovered rule. -/
theorem c1_rule_collections_parallel (txt : Str) (m : ParsedData)
    (h : parseEmbedModel txt = .ok m) :
    m.rules.names.length = (rulesListOf txt).length ∧
    m.rules.events.length = (rulesListOf txt).length ∧
    m.rules.conditions.length = (rulesListOf txt).length ∧
    m.rules.actions.length = (rulesListOf txt).length ∧
    m.rules.trackerProperties.length = (rulesListOf txt).length ∧
    m.rules.customCode.length = (rulesListOf txt).length := by
  have hr := (parseEmbedModel_ok_shape txt m h).1
  have hl := foldl_ruleStep_lengths (rulesListOf txt) emptyRules
  rw [hr]
  unfold buildRules
  simp only [emptyRules] at hl
  simp only [List.length_nil, Nat.zero_add] at hl
  exact ⟨hl.1.1, hl.1.2, hl.2.1.1, hl.2.1.2, hl.2.2.1, hl.2.2.2⟩

/-- Witness for C1: the concrete bundle with one discovered rule. -/
theorem c1_rule_collections_parallel_witness :
    bundleAmodel.rules.names.length = (rulesListOf bundleA).length ∧
    bundleAmodel.rules.events.length = (rulesListOf bundleA).length ∧
    bundleAmodel.rules.conditions.length = (rulesListOf bundleA).length ∧
    bundleAmodel.rules.actions.length = (rulesListOf bundleA).length ∧
    bundleAmodel.rules.trackerProperties.length =
      (rulesListOf bundleA).length ∧
    bundleAmodel.rules.customCode.length = (rulesListOf bundleA).length :=
  c1_rule_collections_parallel bundleA bundleAmodel (by rfl)

/-!
Claim C6: lookup and failure behavior of rule analysis.
-/

theorem idxOf_eq_none_iff (x : Str) (l : List Str) :
    idxOf x l = none ↔ x ∉ l := by
  induction l with
  | nil => simp [idxOf]
  | cons y ys ih =>
    by_cases h : y = x
    · subst h
      simp [idxOf]
    · simp only [idxOf, if_neg h, Option.map_eq_none', ih, List.mem_cons]
      constructor
      · intro hn hmem
        rcases hmem with h1 | h2
        · exact h h1.symm
        · exact hn h2
      · intro hn h2
        exact hn (Or.inr h2)

theorem idxOf_append_cons (x : Str) (pre post : List Str) (hpre : x ∉ pre) :
    idxOf x (pre ++ x :: post) = some pre.length := by
  induction pre with
  | nil => simp [idxOf]
  | cons y ys ih =>
    have hy : ¬ y = x := fun h => hpre (by simp [h])
    show idxOf x (y :: (ys ++ x :: post)) = some (ys.length + 1)
    rw [idxOf, if_neg hy, ih (fun hm => hpre (List.mem_cons_of_mem y hm))]
    rfl

theorem getD_append_cons (pre post : List Str) (x d : Str) :
    (pre ++ x :: post).getD pre.length d = x := by
  induction pre with
  | nil => simp [List.getD]
  | cons y ys ih =>
    simpa [List.getD] using ih

/-- C6: `analyzeRule` fails with `NoModelParsed` whenever no model is
stored; with a stored model it fails with `RuleNotFound` exactly when the
name occurs nowhere in the rule names; and when the name occurs, it
operates on the first matching rule. -/
theorem c6_analyze_rule_lookup (fetch : Str → Except Str Str)
    (st : ClientState) (nm : Str) :
    (st.parsedEmbed = none →
      (analyzeRule fetch st nm).2.2 = .error .noModelParsed) ∧
    (∀ pd, st.parsedEmbed = some pd →
      (((analyzeRule fetch st nm).2.2 = .error .ruleNotFound) ↔
        nm ∉ pd.rules.names) ∧
      (∀ pre post, pd.rules.names = pre ++ nm :: post → nm ∉ pre →
        ∃ rd, (analyzeRule fetch st nm).2.2 = .ok rd ∧
          rd.name = nm ∧
          rd.event = pd.rules.events.getD pre.length [] ∧
          rd.condition = pd.rules.conditions.getD pre.length [] ∧
          rd.action = pd.rules.actions.getD pre.length [] ∧
          rd.trackerProperty =
            pd.rules.trackerProperties.getD pre.length [])) := by
  constructor
  · intro h
    simp [analyzeRule, h]
  · intro pd hpd
    constructor
    · rcases hidx : idxOf nm pd.rules.names with _ | i
      · have : nm ∉ pd.rules.names := (idxOf_eq_none_iff nm _).mp hidx
        simp [analyzeRule, hpd, hidx, this]
      · have hmem : nm ∈ pd.rules.names := by
          by_contra hc
          rw [← idxOf_eq_none_iff] at hc
          rw [hc] at hidx
          exact Option.noConfusion hidx
        refine iff_of_false ?_ (by simpa using hmem)
        simp only [analyzeRule, hpd, hidx]
        split
        · split
          · split
            · simp
            · split <;> simp
          · simp
        · simp
    · intro pre post hnames hpre
      have hidx : idxOf nm pd.rules.names = some pre.length := by
        rw [hnames]
        exact idxOf_append_cons nm pre post hpre
      have hname : pd.rules.names.getD pre.length [] = nm := by
        rw [hnames]
        exact getD_append_cons pre post nm []
      simp only [analyzeRule, hpd, hidx]
      split
      · split
        · split
          · exact ⟨_, rfl, hname, rfl, rfl, rfl, rfl⟩
          · split
            · exact ⟨_, rfl, hname, rfl, rfl, rfl, rfl⟩
            · exact ⟨_, rfl, hname, rfl, rfl, rfl, rfl⟩
        · exact ⟨_, rfl, hname, rfl, rfl, rfl, rfl⟩
      · exact ⟨_, rfl, hname, rfl, rfl, rfl, rfl⟩

/-- Witness for C6: the unparsed session fails with `NoModelParsed`, a
parsed session fails with `RuleNotFound` on an unknown name, and
analyzing the one rule of the concrete bundle returns its record. -/
theorem c6_analyze_rule_lookup_witness :
    (analyzeRule fetchPlain ⟨none⟩ (str "PageLoad")).2.2 =
      .error .noModelParsed ∧
    (analyzeRule fetchPlain ⟨some bundleAmodel⟩ (str "nonexistent")).2.2 =
      .error .ruleNotFound ∧
    ∃ rd,
      (analyzeRule fetchPlain ⟨some bundleAmodel⟩ (str "PageLoad")).2.2 =
        .ok rd ∧
      rd.name = str "PageLoad" ∧
      rd.event = bundleAmodel.rules.events.getD 0 [] ∧
      rd.condition = bundleAmodel.rules.conditions.getD 0 [] ∧
      rd.action = bundleAmodel.rules.actions.getD 0 [] ∧
      rd.trackerProperty = bundleAmodel.rules.trackerProperties.getD 0 [] :=
  ⟨(c6_analyze_rule_lookup fetchPlain ⟨none⟩ (str "PageLoad")).1 rfl,
   (((c6_analyze_rule_lookup fetchPlain ⟨some bundleAmodel⟩
        (str "nonexistent")).2 bundleAmodel rfl).1).mpr (by decide),
   ((c6_analyze_rule_lookup fetchPlain ⟨some bundleAmodel⟩
        (str "PageLoad")).2 bundleAmodel rfl).2 [] [] (by rfl) (by decide)⟩

/-!
Claim C3: the stored condition summary.
-/

/-- Counterexample to C3 as stated: for the rule window of the concrete
bundle, the non-empty conditions region has raw inner text, yet the
stored condition summary is the fixed sentinel, not that text. -/
theorem c3_condition_summary_counterexample :
    extractCondition ((rulesListOf bundleA).getD 0 ([], [])).2 = hasCondLit ∧
    conditionInnerSpec ((rulesListOf bundleA).getD 0 ([], [])).2 =
      str "\x7bx:1\x7d" ∧
    extractCondition ((rulesListOf bundleA).getD 0 ([], [])).2 ≠
      conditionInnerSpec ((rulesListOf bundleA).getD 0 ([], [])).2 ∧
    (parseEmbedModel bundleA).toOption.map (fun m => m.rules.conditions) =
      some [hasCondLit] :=
  ⟨by rfl, by rfl, by decide, by rfl⟩

/-- C3 amended: the condition summary produced for a rule window is the
fixed string `Has conditions` exactly when the window contains the
`conditions:[` marker but not the `conditions:[]` marker, and the empty
string otherwise. -/
theorem c3_condition_summary_amended (ctx : Str) :
    (extractCondition ctx = hasCondLit ∨ extractCondition ctx = []) ∧
    (extractCondition ctx = hasCondLit ↔
      (condOpenLit <:+: ctx ∧ ¬ condEmptyLit <:+: ctx)) := by
  have hne : hasCondLit ≠ ([] : Str) := by decide
  have h1 := containsSub_iff ctx condOpenLit
  have h2 := containsSub_iff ctx condEmptyLit
  constructor
  · cases hb : containsSub ctx condOpenLit <;>
      cases hc : containsSub ctx condEmptyLit <;>
        simp [extractCondition, hb, hc]
  · rw [← h1, ← h2]
    cases hb : containsSub ctx condOpenLit <;>
      cases hc : containsSub ctx condEmptyLit <;>
        simp [extractCondition, hb, hc, hne]

/-!
Claim C8: data-element type classification.
-/

theorem foldl_last_match (d : Str) (l : List (Str × Str)) (init : Str) :
    l.foldl (fun t p => if containsSub d p.2 then p.1 else t) init =
      (((l.filter (fun p => containsSub d p.2)).getLast?).map Prod.fst).getD
        init := by
  induction l generalizing init with
  | nil => simp
  | cons p ps ih =>
    by_cases h : containsSub d p.2 = true
    · rw [List.foldl_cons, if_pos h, ih, List.filter_cons_of_pos (by simpa using h)]
      rcases hq : (ps.filter fun q => containsSub d q.2).getLast? with _ | q
      · simp [List.getLast?_cons, List.getLastD_eq_getLast?, hq]
      · simp [List.getLast?_cons, List.getLastD_eq_getLast?, hq]
    · have hb : containsSub d p.2 = false := by
        cases hx : containsSub d p.2
        · rfl
        · exact absurd hx h
      rw [List.foldl_cons, if_neg (by simp [hb]), ih,
        List.filter_cons_of_neg (by simp [hb])]

/-- C8 amended: classification follows the fixed ordered signature table
with last-match-wins (the last matching table entry determines the type,
the module-path-derived initial type applies when none matches); in
particular a record text containing the `storageDuration` signature and
none of the later signatures classifies as `localStorage`. -/
theorem c8_type_classification_amended (d : Str) :
    classifyType d = ((lastMatching d).map Prod.fst).getD (initialType d) ∧
    (containsSub d (str "storageDuration") = true →
      containsSub d (str "customCode") = false →
      containsSub d (str "path:") = false →
      containsSub d (str "elementSelector") = false →
      containsSub d (str "cookieName") = false →
      classifyType d = str "localStorage") := by
  constructor
  · exact foldl_last_match d typeChecks (initialType d)
  · intro h1 h2 h3 h4 h5
    unfold classifyType typeChecks
    simp [h1, h2, h3, h4, h5]

/-- Witness for C8: a record text containing only the `storageDuration`
signature classifies as `localStorage`. -/
theorem c8_type_classification_amended_witness :
    classifyType (str "storageDuration") =
      ((lastMatching (str "storageDuration")).map Prod.fst).getD
        (initialType (str "storageDuration")) ∧
    classifyType (str "storageDuration") = str "localStorage" :=
  ⟨(c8_type_classification_amended (str "storageDuration")).1,
   (c8_type_classification_amended (str "storageDuration")).2 (by decide)
     (by decide) (by decide) (by decide) (by decide)⟩

/-- Counterexample to C8 as stated: the record text of the concrete
data element contains `storageDuration`, yet `analyzeDataElement`
classifies it as `cookieValue`, because the later `cookieName` signature
entry wins. -/
theorem c8_storage_duration_counterexample :
    containsSub (str "\"El1\":\x7bstorageDuration:1,cookieName:\"c\"\x7d")
      (str "storageDuration") = true ∧
    analyzeDataElement ⟨some bundleC8model⟩ (str "El1") =
      .ok (str "cookieValue",
        str "\"El1\":\x7bstorageDuration:1,cookieName:\"c\"\x7d") ∧
    str "cookieValue" ≠ str "localStorage" :=
  ⟨by rfl, by rfl, by decide⟩

/-!
Claim C4: event type extraction.
-/

theorem jsSplitChar_ne_nil (sep : Char) (s : Str) : jsSplitChar sep s ≠ [] := by
  cases s with
  | nil => simp [jsSplitChar]
  | cons c rest =>
    by_cases h : c = sep
    · simp [jsSplitChar, h]
    · simp only [jsSplitChar, if_neg h]
      rcases hs : jsSplitChar sep rest with _ | ⟨hd, tl⟩ <;> simp

theorem takeWhile_append_all (q : Char → Bool) (l m : Str)
    (h : ∀ x ∈ l, q x = true) :
    (l ++ m).takeWhile q = l ++ m.takeWhile q := by
  induction l with
  | nil => simp
  | cons a l' ih =>
    have ha := h a (List.mem_cons_self a l')
    simp [List.takeWhile_cons, ha,
      ih (fun x hx => h x (List.mem_cons_of_mem a hx))]

theorem takeWhile_append_stop (q : Char → Bool) (l m : Str)
    (h : ∃ x ∈ l, q x = false) :
    (l ++ m).takeWhile q = l.takeWhile q := by
  induction l with
  | nil =>
    obtain ⟨x, hx, _⟩ := h
    exact absurd hx (List.not_mem_nil x)
  | cons a l' ih =>
    by_cases ha : q a = true
    · obtain ⟨x, hx, hqx⟩ := h
      rcases List.mem_cons.mp hx with hx1 | hx2
      · rw [hx1] at hqx
        rw [hqx] at ha
        exact absurd ha (by simp)
      · simp [List.takeWhile_cons, ha, ih ⟨x, hx2, hqx⟩]
    · have ha' : q a = false := by
        cases hqa : q a
        · rfl
        · exact absurd hqa ha
      simp [List.takeWhile_cons, ha']

theorem getLastD_default_irrel (l : List Str) (hl : l ≠ []) (d e : Str) :
    l.getLastD d = l.getLastD e := by
  rw [List.getLastD_eq_getLast?, List.getLastD_eq_getLast?]
  rcases ho : l.getLast? with _ | q
  · have := List.getLast?_isSome (l := l)
    rw [ho] at this
    simp at this
    exact absurd this hl
  · rfl

theorem jsSplitChar_of_not_mem (sep : Char) (s : Str) (h : sep ∉ s) :
    jsSplitChar sep s = [s] := by
  induction s with
  | nil => rfl
  | cons c rest ih =>
    have hc : ¬ c = sep := fun he => h (by simp [he])
    simp only [jsSplitChar, if_neg hc,
      ih (fun hm => h (List.mem_cons_of_mem c hm))]

theorem jsSplitChar_length (sep : Char) (s : Str) :
    (jsSplitChar sep s).length = s.count sep + 1 := by
  induction s with
  | nil => simp [jsSplitChar]
  | cons c rest ih =>
    by_cases h : c = sep
    · subst h
      simp [jsSplitChar, List.count_cons, ih]
    · simp only [jsSplitChar, if_neg h]
      rcases hs : jsSplitChar sep rest with _ | ⟨hd, tl⟩
      · exact absurd hs (jsSplitChar_ne_nil sep rest)
      · rw [hs] at ih
        simp only [List.length_cons] at ih ⊢
        have hcnt : (c :: rest).count sep = rest.count sep := by
          simp [List.count_cons, h]
        omega

theorem jsSplitChar_headD (sep : Char) (s : Str) :
    (jsSplitChar sep s).headD [] = s.takeWhile (· ≠ sep) := by
  induction s with
  | nil => rfl
  | cons c rest ih =>
    by_cases h : c = sep
    · subst h
      simp [jsSplitChar, List.takeWhile_cons]
    · simp only [jsSplitChar, if_neg h]
      rcases hs : jsSplitChar sep rest with _ | ⟨hd, tl⟩
      · exact absurd hs (jsSplitChar_ne_nil sep rest)
      · rw [hs] at ih
        simp only [List.headD_cons] at ih
        simp [List.takeWhile_cons, h, ih]

theorem jsSplitChar_getLastD (sep : Char) (s : Str) :
    (jsSplitChar sep s).getLastD [] = lastSegSpec sep s := by
  induction s with
  | nil => rfl
  | cons c rest ih =>
    by_cases hc : c = sep
    · subst hc
      have hstep : jsSplitChar c (c :: rest) = [] :: jsSplitChar c rest := by
        simp [jsSplitChar]
      rw [hstep, List.getLastD_cons, ih]
      unfold lastSegSpec
      rw [List.reverse_cons]
      by_cases hm : c ∈ rest
      · rw [takeWhile_append_stop _ _ _ ⟨c, by simpa using hm, by simp⟩]
      · have hall : ∀ x ∈ rest.reverse, (decide (x ≠ c)) = true := by
          intro x hx
          simp only [decide_eq_true_eq]
          exact fun he => hm (he ▸ List.mem_reverse.mp hx)
        rw [takeWhile_append_all _ _ _ hall,
          List.takeWhile_eq_self_iff.mpr hall]
        simp [List.takeWhile_cons]
    · simp only [jsSplitChar, if_neg hc]
      rcases hs : jsSplitChar sep rest with _ | ⟨hd, tl⟩
      · exact absurd hs (jsSplitChar_ne_nil sep rest)
      · by_cases hm : sep ∈ rest
        · have htl : tl ≠ [] := by
            intro he
            have hlen := jsSplitChar_length sep rest
            rw [hs, he] at hlen
            simp at hlen
            have : 0 < rest.count sep := List.count_pos_iff.mpr hm
            omega
          rw [hs] at ih
          rw [List.getLastD_cons] at ih ⊢
          rw [getLastD_default_irrel tl htl (c :: hd) hd, ih]
          unfold lastSegSpec
          rw [List.reverse_cons,
            takeWhile_append_stop _ _ _ ⟨sep, by simpa using hm, by simp⟩]
        · have hrest := jsSplitChar_of_not_mem sep rest hm
          rw [hrest] at hs
          injection hs with h1 h2
          subst h1
          subst h2
          have hall : ∀ x ∈ rest.reverse ++ [c], (decide (x ≠ sep)) = true := by
            intro x hx
            simp only [decide_eq_true_eq]
            rcases List.mem_append.mp hx with hx1 | hx2
            · exact fun he => hm (he ▸ List.mem_reverse.mp hx1)
            · intro he
              rw [List.mem_singleton.mp hx2] at he
              exact hc he
          unfold lastSegSpec
          rw [List.reverse_cons, List.takeWhile_eq_self_iff.mpr hall]
          simp

theorem findEventPath_none_of_no_marker (ctx : Str)
    (h : containsSub ctx evOpenLit = false) : findEventPath ctx = none := by
  induction ctx with
  | nil => rfl
  | cons c rest ih =>
    simp only [containsSub, Bool.or_eq_false_iff] at h
    have he : expectLit evOpenLit (c :: rest) = none := by
      simp [expectLit, h.1]
    simp [findEventPath, he, ih h.2]

/-- C4: the event type of a rule window is the filename stem (final
slash-separated segment of the path, truncated before its first dot) of
the quoted path captured by the event regex (the first `path` key
reached from an `events:[` marker); it is the sentinel `Unknown` when
the regex does not match, in particular whenever the window has no
`events:[` region; and the concrete bundle whose rule has an events path
ending in `pageLoad.js` yields rule names `PageLoad` with event type
`pageLoad`. -/
theorem c4_event_type (ctx : Str) :
    (∀ p, findEventPath ctx = some p → extractEvent ctx = stemSpec p) ∧
    (findEventPath ctx = none → extractEvent ctx = unknownLit) ∧
    (containsSub ctx evOpenLit = false → extractEvent ctx = unknownLit) ∧
    (parseEmbedModel bundleA).toOption.map
        (fun m => (m.rules.names, m.rules.events)) =
      some ([str "PageLoad"], [str "pageLoad"]) := by
  refine ⟨?_, ?_, ?_, by rfl⟩
  · intro p hp
    simp only [extractEvent, hp]
    rw [jsSplitChar_getLastD, jsSplitChar_headD]
    rfl
  · intro h
    simp [extractEvent, h]
  · intro h
    simp [extractEvent, findEventPath_none_of_no_marker ctx h]

/-- Witness for C4: a window with an events path ending in `click.js`
yields the stem `click`, and a window with no events region yields the
sentinel. -/
theorem c4_event_type_witness :
    extractEvent (str "events:[path:\"x/y/click.js\"]") =
      stemSpec (str "x/y/click.js") ∧
    stemSpec (str "x/y/click.js") = str "click" ∧
    extractEvent (str "no region here") = unknownLit :=
  ⟨(c4_event_type (str "events:[path:\"x/y/click.js\"]")).1
      (str "x/y/click.js") (by rfl),
   by decide,
   (c4_event_type (str "no region here")).2.2.1 (by decide)⟩

/-!
Claim C2: soundness of the variable usage index.
-/

theorem mem_pvStep_of_mem (r : RulesData) (v : Str) (acc : List Str)
    (p : Nat × Str) (a : Str) (ha : a ∈ acc) : a ∈ pvStep r v acc p := by
  unfold pvStep
  split
  · exact List.mem_append_left _ ha
  · exact ha

theorem mem_foldl_pvStep (r : RulesData) (v : Str) :
    ∀ (l : List (Nat × Str)) (acc : List Str) (a : Str), a ∈ acc →
      a ∈ l.foldl (pvStep r v) acc
  | [], _, _, ha => ha
  | p :: ps, acc, a, ha => by
    rw [List.foldl_cons]
    exact mem_foldl_pvStep r v ps _ a (mem_pvStep_of_mem r v acc p a ha)

theorem foldl_pvStep_complete (r : RulesData) (v : Str) :
    ∀ (l : List (Nat × Str)) (acc : List Str) (p : Nat × Str), p ∈ l →
      hasTokenWB v (combinedAt r p.1) = true →
      p.2 ∈ l.foldl (pvStep r v) acc
  | [], _, p, hp, _ => absurd hp (List.not_mem_nil p)
  | q :: qs, acc, p, hp, htok => by
    rw [List.foldl_cons]
    rcases List.mem_cons.mp hp with rfl | hp2
    · apply mem_foldl_pvStep r v qs
      by_cases hc : hasTokenWB v (combinedAt r p.1) ∧ p.2 ∉ acc
      · unfold pvStep
        rw [if_pos hc]
        exact List.mem_append_right _ (List.mem_singleton_self _)
      · have hin : p.2 ∈ acc := by
          by_contra hnin
          exact hc ⟨htok, hnin⟩
        exact mem_pvStep_of_mem r v acc p p.2 hin
    · exact foldl_pvStep_complete r v qs _ p hp2 htok

theorem foldl_pvStep_saturated (r : RulesData) (v : Str) :
    ∀ (l : List (Nat × Str)) (acc : List Str),
      (∀ p ∈ l, hasTokenWB v (combinedAt r p.1) = true → p.2 ∈ acc) →
      l.foldl (pvStep r v) acc = acc
  | [], _, _ => rfl
  | q :: qs, acc, h => by
    have hq : pvStep r v acc q = acc := by
      unfold pvStep
      rw [if_neg]
      rintro ⟨ht, hn⟩
      exact hn (h q (List.mem_cons_self q qs) ht)
    rw [List.foldl_cons, hq]
    exact foldl_pvStep_saturated r v qs acc
      (fun p hp ht => h p (List.mem_cons_of_mem q hp) ht)

theorem populateVar_idem (r : RulesData) (v : Str) :
    populateVar r v (populateVar r v []) = populateVar r v [] := by
  unfold populateVar
  exact foldl_pvStep_saturated r v _ _
    (fun p hp ht => foldl_pvStep_complete r v _ [] p hp ht)

theorem foldl_pvStep_shape (r : RulesData) (v : Str) :
    ∀ (l : List (Nat × Str)) (acc : List Str),
      ∃ t, l.foldl (pvStep r v) acc = acc ++ t ∧
        t.Sublist (l.map Prod.snd)
  | [], acc => ⟨[], by simp⟩
  | q :: qs, acc => by
    rcases foldl_pvStep_shape r v qs (pvStep r v acc q) with ⟨t, ht, hs⟩
    by_cases hc : hasTokenWB v (combinedAt r q.1) ∧ q.2 ∉ acc
    · refine ⟨q.2 :: t, ?_, ?_⟩
      · rw [List.foldl_cons, ht]
        unfold pvStep
        rw [if_pos hc]
        simp
      · show (q.2 :: t).Sublist ((q :: qs).map Prod.snd)
        rw [List.map_cons]
        exact hs.cons₂ q.2
    · refine ⟨t, ?_, ?_⟩
      · rw [List.foldl_cons, ht]
        unfold pvStep
        rw [if_neg hc]
      · show t.Sublist ((q :: qs).map Prod.snd)
        rw [List.map_cons]
        exact hs.cons q.2

theorem foldl_pvStep_nodup (r : RulesData) (v : Str) :
    ∀ (l : List (Nat × Str)) (acc : List Str), acc.Nodup →
      (l.foldl (pvStep r v) acc).Nodup
  | [], _, h => h
  | q :: qs, acc, h => by
    rw [List.foldl_cons]
    apply foldl_pvStep_nodup r v qs
    unfold pvStep
    split
    · rename_i hc
      refine List.Nodup.append h (List.nodup_singleton _) ?_
      intro x hx hx2
      rw [List.mem_singleton.mp hx2] at hx
      exact hc.2 hx
    · exact h

theorem populateVar_nil_nodup (r : RulesData) (v : Str) :
    (populateVar r v []).Nodup :=
  foldl_pvStep_nodup r v _ [] List.nodup_nil

theorem populateVar_nil_sublist (r : RulesData) (v : Str) :
    (populateVar r v []).Sublist r.names := by
  rcases foldl_pvStep_shape r v r.names.enum [] with ⟨t, ht, hs⟩
  unfold populateVar
  rw [ht]
  simpa [List.enum_map_snd] using hs

theorem lookupL_mem {α : Type} (k : Str) (m : List (Str × α)) (v : α)
    (h : lookupL k m = some v) : (k, v) ∈ m := by
  induction m with
  | nil => exact absurd h (by simp [lookupL])
  | cons p rest ih =>
    obtain ⟨k', v'⟩ := p
    by_cases hk : k' = k
    · rw [lookupL, if_pos hk] at h
      injection h with h
      subst hk
      subst h
      exact List.mem_cons_self _ _
    · rw [lookupL, if_neg hk] at h
      exact List.mem_cons_of_mem _ (ih h)

theorem mem_upsertL {α : Type} (k : Str) (v : α) (m : List (Str × α))
    (q : Str × α) (h : q ∈ upsertL k v m) : q = (k, v) ∨ q ∈ m := by
  induction m with
  | nil =>
    simp only [upsertL, List.mem_singleton] at h
    exact Or.inl h
  | cons p rest ih =>
    obtain ⟨k', v'⟩ := p
    by_cases hk : k' = k
    · rw [upsertL, if_pos hk] at h
      rcases List.mem_cons.mp h with h1 | h2
      · exact Or.inl h1
      · exact Or.inr (List.mem_cons_of_mem _ h2)
    · rw [upsertL, if_neg hk] at h
      rcases List.mem_cons.mp h with h1 | h2
      · exact Or.inr (h1 ▸ List.mem_cons_self _ _)
      · rcases ih h2 with h3 | h4
        · exact Or.inl h3
        · exact Or.inr (List.mem_cons_of_mem _ h4)

theorem extractVariablesStep_inv (r : RulesData) (family : Str)
    (range : Nat) (text : Str) (vars : List (Str × List Str))
    (hv : ∀ q ∈ vars, q.2 = populateVar r q.1 []) :
    ∀ q ∈ extractVariablesStep r family range text vars,
      q.2 = populateVar r q.1 [] := by
  unfold extractVariablesStep
  refine foldl_inv
    (fun (m : List (Str × List Str)) => ∀ q ∈ m, q.2 = populateVar r q.1 [])
    _ _ _ hv ?_
  intro m i hm _
  dsimp only
  split
  · intro q hq
    rcases mem_upsertL _ _ _ q hq with h1 | h2
    · rw [h1]
      dsimp only
      rcases hl : lookupL (family ++ natToChars i) m with _ | cur
      · simp
      · have hcur := hm _ (lookupL_mem _ _ _ hl)
        dsimp only at hcur
        simp [hcur, populateVar_idem]
    · exact hm q h2
  · exact hm

theorem buildVariables_inv (r : RulesData) :
    ∀ q ∈ buildVariables r, q.2 = populateVar r q.1 [] := by
  unfold buildVariables
  refine foldl_inv
    (fun (m : List (Str × List Str)) => ∀ q ∈ m, q.2 = populateVar r q.1 [])
    _ _ _ (by simp) ?_
  intro m p hm _
  dsimp only
  exact extractVariablesStep_inv r _ 1001 _ _
    (extractVariablesStep_inv r _ 76 _ _
      (extractVariablesStep_inv r _ 251 _ _ hm))

/-- C2: in every parsed model, each entry of the variable index is a
duplicate-free subsequence of the rule name sequence; in particular
every listed rule name occurs among the rule names, each at most once,
in first-seen rule order. -/
theorem c2_variable_index_sound (txt : Str) (m : ParsedData) (v : Str)
    (l : List Str) (hm : parseEmbedModel txt = .ok m)
    (hl : lookupL v m.«variables» = some l) :
    l.Nodup ∧ l.Sublist m.rules.names ∧ ∀ n ∈ l, n ∈ m.rules.names := by
  have hvars := (parseEmbedModel_ok_shape txt m hm).2
  rw [hvars] at hl
  have heq := buildVariables_inv m.rules (v, l) (lookupL_mem v _ l hl)
  dsimp only at heq
  have hs : l.Sublist m.rules.names := heq ▸ populateVar_nil_sublist m.rules v
  exact ⟨heq ▸ populateVar_nil_nodup m.rules v, hs, fun n hn => hs.subset hn⟩

/-- Witness for C2: the concrete bundle indexes `eVar1` as used by the
rule `PageLoad`, and the theorem yields the invariant for it. -/
theorem c2_variable_index_sound_witness :
    lookupL (str "eVar1") bundleAmodel.«variables» = some [str "PageLoad"] ∧
    ([str "PageLoad"] : List Str).Nodup ∧
    ([str "PageLoad"] : List Str).Sublist bundleAmodel.rules.names :=
  ⟨by rfl,
   (c2_variable_index_sound bundleA bundleAmodel (str "eVar1")
      [str "PageLoad"] (by rfl) (by rfl)).1,
   (c2_variable_index_sound bundleA bundleAmodel (str "eVar1")
      [str "PageLoad"] (by rfl) (by rfl)).2.1⟩

/-!
Claims C5 and C10: deferred remote custom-code resolution.
-/

theorem getD_out (l : List Str) (i : Nat) (d : Str) (h : l.length ≤ i) :
    l.getD i d = d := by
  rw [List.getD_eq_getElem?_getD, List.getElem?_eq_none h]
  rfl

theorem getD_set_self (l : List Str) (i : Nat) (a d : Str)
    (h : i < l.length) : (l.set i a).getD i d = a := by
  rw [List.getD_eq_getElem?_getD]
  simp [List.getElem?_set, h]

/-- Counterexample to C5 as stated: for a rule whose custom-code field
is a URL marker, after a first `analyzeRule` call that fetches and
overwrites the slot, a second call still performs a fetch, because the
fetched text itself begins with the URL marker prefix. -/
theorem c5_refetch_counterexample :
    isPrefixL urlColonLit (bundleC5model.rules.customCode.getD 0 []) =
      true ∧
    (analyzeRule fetchUrlText ⟨some bundleC5model⟩ (str "R")).2.1 = true ∧
    (analyzeRule fetchUrlText
      (analyzeRule fetchUrlText ⟨some bundleC5model⟩ (str "R")).1
      (str "R")).2.1 = true :=
  ⟨by rfl, by rfl, by rfl⟩

/-- C5 amended: for a rule whose custom-code field is a URL marker, the
first `analyzeRule` call fetches the remote code and overwrites that
slot of the model in place; provided the fetched text does not itself
begin with the URL marker prefix, a second call performs no fetch and
still sees the fetched text; and when the fetch fails, a failure note is
appended to the local record instead of an error being raised, so the
rule remains analyzable. -/
theorem c5_deferred_resolution_amended (fetch : Str → Except Str Str)
    (pd : ParsedData) (i : Nat) (nm url fetched : Str)
    (hidx : idxOf nm pd.rules.names = some i)
    (hpref : isPrefixL urlColonLit (pd.rules.customCode.getD i []) = true)
    (hurl : urlOf (pd.rules.customCode.getD i []) = some url)
    (hne : url ≠ [])
    (hfetch : fetch url = .ok fetched)
    (hnm : isPrefixL urlColonLit fetched = false) :
    (analyzeRule fetch ⟨some pd⟩ nm).2.1 = true ∧
    (∃ rd, (analyzeRule fetch ⟨some pd⟩ nm).2.2 = .ok rd ∧
      rd.customCode = fetched) ∧
    (∃ pd', (analyzeRule fetch ⟨some pd⟩ nm).1 = ⟨some pd'⟩ ∧
      pd'.rules.customCode.getD i [] = fetched ∧
      pd'.rules.names = pd.rules.names ∧
      (analyzeRule fetch (analyzeRule fetch ⟨some pd⟩ nm).1 nm).2.1 =
        false ∧
      (∃ rd2,
        (analyzeRule fetch (analyzeRule fetch ⟨some pd⟩ nm).1 nm).2.2 =
          .ok rd2 ∧ rd2.customCode = fetched)) ∧
    (∀ g e, g url = .error e →
      (analyzeRule g ⟨some pd⟩ nm).2.1 = true ∧
      ∃ rd3, (analyzeRule g ⟨some pd⟩ nm).2.2 = .ok rd3 ∧
        rd3.customCode =
          pd.rules.customCode.getD i [] ++ fetchFailNote e) := by
  have hccne : pd.rules.customCode.getD i [] ≠ [] := by
    intro h
    rw [h] at hpref
    exact absurd hpref (by decide)
  have hccE : (pd.rules.customCode.getD i []).isEmpty = false := by
    rcases hcc : pd.rules.customCode.getD i [] with _ | ⟨a, t⟩
    · exact absurd hcc hccne
    · rfl
  have hUE : url.isEmpty = false := by
    rcases hu : url with _ | ⟨a, t⟩
    · exact absurd hu hne
    · rfl
  have hi : i < pd.rules.customCode.length := by
    by_contra hlt
    push_neg at hlt
    exact hccne (getD_out _ _ _ hlt)
  have hc1 : analyzeRule fetch ⟨some pd⟩ nm =
      (⟨some { pd with rules := { pd.rules with
          customCode := pd.rules.customCode.set i fetched } }⟩, true,
        .ok { name := pd.rules.names.getD i []
              event := pd.rules.events.getD i []
              condition := pd.rules.conditions.getD i []
              action := pd.rules.actions.getD i []
              trackerProperty := pd.rules.trackerProperties.getD i []
              customCode := fetched }) := by
    simp only [analyzeRule, hidx, hccE, hpref, hurl, hUE, hfetch]
    simp
  have hget : (pd.rules.customCode.set i fetched).getD i [] = fetched :=
    getD_set_self _ _ _ _ hi
  have hc2 : analyzeRule fetch
      (⟨some { pd with rules := { pd.rules with
        customCode := pd.rules.customCode.set i fetched } }⟩ :
          ClientState) nm =
      (⟨some { pd with rules := { pd.rules with
          customCode := pd.rules.customCode.set i fetched } }⟩, false,
        .ok { name := pd.rules.names.getD i []
              event := pd.rules.events.getD i []
              condition := pd.rules.conditions.getD i []
              action := pd.rules.actions.getD i []
              trackerProperty := pd.rules.trackerProperties.getD i []
              customCode := fetched }) := by
    simp only [analyzeRule, hidx, hget, hnm]
    simp
  have hfst : (analyzeRule fetch ⟨some pd⟩ nm).1 =
      (⟨some { pd with rules := { pd.rules with
        customCode := pd.rules.customCode.set i fetched } }⟩ :
          ClientState) := by
    rw [hc1]
  refine ⟨by rw [hc1], ⟨_, by rw [hc1], rfl⟩,
    ⟨{ pd with rules := { pd.rules with
        customCode := pd.rules.customCode.set i fetched } },
      hfst, hget, rfl, by rw [hfst, hc2], ⟨_, by rw [hfst, hc2], rfl⟩⟩,
    ?_⟩
  intro g e hge
  have hcg : analyzeRule g ⟨some pd⟩ nm =
      (⟨some pd⟩, true,
        .ok { name := pd.rules.names.getD i []
              event := pd.rules.events.getD i []
              condition := pd.rules.conditions.getD i []
              action := pd.rules.actions.getD i []
              trackerProperty := pd.rules.trackerProperties.getD i []
              customCode :=
                pd.rules.customCode.getD i [] ++ fetchFailNote e }) := by
    simp only [analyzeRule, hidx, hccE, hpref, hurl, hUE, hge]
    simp
  exact ⟨by rw [hcg], _, by rw [hcg], rfl⟩

/-- Witness for C5: on the concrete bundle, with a fetcher returning
plain code text, the first call fetches and the second call does not. -/
theorem c5_deferred_resolution_amended_witness :
    (analyzeRule fetchPlain ⟨some bundleC5model⟩ (str "R")).2.1 = true ∧
    (analyzeRule fetchPlain
      (analyzeRule fetchPlain ⟨some bundleC5model⟩ (str "R")).1
      (str "R")).2.1 = false := by
  have h := c5_deferred_resolution_amended fetchPlain bundleC5model 0
    (str "R") (str "http://e/c.js") (str "setTimeout();")
    (by rfl) (by rfl) (by rfl) (by decide) (by rfl) (by rfl)
  obtain ⟨h1, _, ⟨pd', _, _, _, h4, _⟩, _⟩ := h
  exact ⟨h1, h4⟩

/-- C10: when the deferred remote custom-code fetch fails, the model is
left entirely unchanged (the slot still holds the URL marker), the
failure note appears only on the returned local record, and a subsequent
call on the same rule attempts the fetch again. -/
theorem c10_fetch_failure_frame (fetch : Str → Except Str Str)
    (pd : ParsedData) (i : Nat) (nm url e : Str)
    (hidx : idxOf nm pd.rules.names = some i)
    (hpref : isPrefixL urlColonLit (pd.rules.customCode.getD i []) = true)
    (hurl : urlOf (pd.rules.customCode.getD i []) = some url)
    (hne : url ≠ [])
    (hfetch : fetch url = .error e) :
    analyzeRule fetch ⟨some pd⟩ nm =
      (⟨some pd⟩, true,
        .ok { name := pd.rules.names.getD i []
              event := pd.rules.events.getD i []
              condition := pd.rules.conditions.getD i []
              action := pd.rules.actions.getD i []
              trackerProperty := pd.rules.trackerProperties.getD i []
              customCode :=
                pd.rules.customCode.getD i [] ++ fetchFailNote e }) ∧
    (analyzeRule fetch (analyzeRule fetch ⟨some pd⟩ nm).1 nm).2.1 =
      true := by
  have hccne : pd.rules.customCode.getD i [] ≠ [] := by
    intro h
    rw [h] at hpref
    exact absurd hpref (by decide)
  have hccE : (pd.rules.customCode.getD i []).isEmpty = false := by
    rcases hcc : pd.rules.customCode.getD i [] with _ | ⟨a, t⟩
    · exact absurd hcc hccne
    · rfl
  have hUE : url.isEmpty = false := by
    rcases hu : url with _ | ⟨a, t⟩
    · exact absurd hu hne
    · rfl
  have hc : analyzeRule fetch ⟨some pd⟩ nm =
      (⟨some pd⟩, true,
        .ok { name := pd.rules.names.getD i []
              event := pd.rules.events.getD i []
              condition := pd.rules.conditions.getD i []
              action := pd.rules.actions.getD i []
              trackerProperty := pd.rules.trackerProperties.getD i []
              customCode :=
                pd.rules.customCode.getD i [] ++ fetchFailNote e }) := by
    simp only [analyzeRule, hidx, hccE, hpref, hurl, hUE, hfetch]
    simp
  refine ⟨hc, ?_⟩
  rw [hc]
  show (analyzeRule fetch ⟨some pd⟩ nm).2.1 = true
  rw [hc]

/-- Witness for C10: on the concrete bundle with a failing fetcher, the
state is unchanged and the second call attempts the fetch again. -/
theorem c10_fetch_failure_frame_witness :
    (analyzeRule fetchFail ⟨some bundleC5model⟩ (str "R")).1 =
      ⟨some bundleC5model⟩ ∧
    (analyzeRule fetchFail ⟨some bundleC5model⟩ (str "R")).2.1 = true ∧
    (analyzeRule fetchFail
      (analyzeRule fetchFail ⟨some bundleC5model⟩ (str "R")).1
      (str "R")).2.1 = true := by
  have h := c10_fetch_failure_frame fetchFail bundleC5model 0 (str "R")
    (str "http://e/c.js") (str "boom")
    (by rfl) (by rfl) (by rfl) (by decide) (by rfl)
  exact ⟨by rw [h.1], by rw [h.1], h.2⟩

/-!
Claim C9: the extraction pass is deterministic in the bundle text.
-/

/-- C9: two runs of the extraction pass on the same bundle text, from
any two session states (in particular, a run and an immediate re-run),
produce models with identical rule name sequences and identical
data-element key sequences. -/
theorem c9_parse_deterministic (s1 s2 : ClientState) (txt : Str)
    (m1 m2 : ParsedData)
    (h1 : (parseEmbedRun s1 txt).2 = .ok m1)
    (h2 : (parseEmbedRun s2 txt).2 = .ok m2) :
    m1.rules.names = m2.rules.names ∧
    m1.dataElements.map Prod.fst = m2.dataElements.map Prod.fst := by
  rw [parseEmbedRun_snd] at h1 h2
  rw [h1] at h2
  injection h2 with h2
  rw [h2]
  exact ⟨rfl, rfl⟩

/-- Witness for C9: parsing a concrete bundle and re-parsing it from the
resulting session state. -/
theorem c9_parse_deterministic_witness :
    bundleAmodel.rules.names = bundleAmodel.rules.names ∧
    bundleAmodel.dataElements.map Prod.fst =
      bundleAmodel.dataElements.map Prod.fst :=
  c9_parse_deterministic ⟨none⟩ (parseEmbedRun ⟨none⟩ bundleA).1 bundleA
    bundleAmodel bundleAmodel (by rfl) (by rfl)
